import Mathlib

/-!
Verification development for the libsparkypi radio-transmission library
(`src/lib.rs`, `src/builder.rs`).

The library drives a GPIO output line through a sequence of timed
high/low pulses.  We give a shallow embedding of the emission engine:

* `ProtocolProperties` and `Transmission` mirror the Rust structs
  (`u8`/`u16` fields become `Nat`; the representation invariants of the
  machine types are collected in `Transmission.wf`).
* The GPIO line handle is modelled as an oracle `Line ε` giving the
  result of the k-th `set_value` call; every `set_value` in the source
  is immediately followed by exactly one `thread::sleep`, so one
  "phase" event `(level, micros)` stands for a `set_value(level)`
  followed by `sleep(micros)`.
* `send_bit`, `send_sync_bit`, `send_char`, `send_chars`,
  `send_repeats` and `Transmission.send_to` mirror the corresponding
  Rust control flow (`?` early returns become `Except` with the
  aborted state carried in the error).
* Rust evaluates each duration as `pulse_length as u64 * factor as u64`;
  `mul_u64` keeps the explicit wrap-around at `2 ^ 64`.
-/

/-- Wrap-around bound of Rust `u64` arithmetic. -/
def U64MOD : Nat := 2 ^ 64

/-- `pulse_length as u64 * factor as u64`: `Nat` product reduced by the
`u64` wrap-around. -/
def mul_u64 (a b : Nat) : Nat := a * b % U64MOD

/-- The four protocol timing multipliers (Rust struct
`ProtocolProperties`, all fields `u8`). -/
structure ProtocolProperties where
  short : Nat
  long : Nat
  sync_bit : Nat
  sync_gap : Nat
deriving DecidableEq

/-- A transmission (Rust struct `Transmission`): symbolic sequence
(the character content of the Rust `String`), base pulse length in
microseconds (`u16`), repeat count (`u8`) and embedded protocol. -/
structure Transmission where
  sequence : List Char
  pulse_length : Nat
  repeats : Nat
  protocol : ProtocolProperties
deriving DecidableEq

/-- Representation invariant of the Rust machine-integer fields
(`pulse_length : u16`, `repeats : u8`, protocol multipliers `u8`). -/
def Transmission.wf (t : Transmission) : Prop :=
  t.pulse_length < 2 ^ 16 ∧ t.repeats < 2 ^ 8 ∧
    t.protocol.short < 2 ^ 8 ∧ t.protocol.long < 2 ^ 8 ∧
    t.protocol.sync_bit < 2 ^ 8 ∧ t.protocol.sync_gap < 2 ^ 8

instance (t : Transmission) : Decidable t.wf := by
  unfold Transmission.wf; infer_instance

/-- `protocol1` preset `P1` from the source. -/
def P1 : ProtocolProperties := ⟨1, 3, 1, 31⟩

/-- `protocol2` preset `P2` from the source. -/
def P2 : ProtocolProperties := ⟨1, 2, 1, 10⟩

/-- `XEN` preset from the source. -/
def XEN : ProtocolProperties := ⟨1, 2, 1, 11⟩

/-- The line handle, as the emission algorithm observes it: the result
of the k-th `set_value` call (0-indexed), `ε` being the error type
(`gpio_cdev::Error` in the source). -/
def Line (ε : Type) : Type := Nat → Except ε Unit

/-- A line on which every `set_value` call succeeds. -/
def ok_line (ε : Type) : Line ε := fun _ => Except.ok ()

/-- Emission state: number of `set_value` calls attempted so far, and
the `(level, micros)` phases successfully driven so far, in order. -/
abbrev EmitSt : Type := Nat × List (Nat × Nat)

/-- One phase of the source: `lh.set_value(level)?` followed by
`thread::sleep(Duration::from_micros(micros))`.  On failure the `?`
operator aborts, carrying the fault and the state at the abort (the
failing call was attempted, no phase was driven). -/
def set_value_sleep {ε : Type} (line : Line ε) (level micros : Nat)
    (st : EmitSt) : Except (ε × EmitSt) EmitSt :=
  match line st.1 with
  | Except.error e => Except.error (e, (st.1 + 1, st.2))
  | Except.ok _ => Except.ok (st.1 + 1, st.2 ++ [(level, micros)])

/-- Rust `send_bit`: a high phase then a low phase, factor order
depending on `bit`. -/
def send_bit {ε : Type} (line : Line ε) (bit : Bool)
    (pulse_length factor1 factor2 : Nat) (st : EmitSt) :
    Except (ε × EmitSt) EmitSt :=
  if bit then
    (set_value_sleep line 1 (mul_u64 pulse_length factor1) st).bind
      (set_value_sleep line 0 (mul_u64 pulse_length factor2))
  else
    (set_value_sleep line 1 (mul_u64 pulse_length factor2) st).bind
      (set_value_sleep line 0 (mul_u64 pulse_length factor1))

/-- Rust `send_sync_bit`: high for `pulse_length * factor2`, low for
`pulse_length * factor1`. -/
def send_sync_bit {ε : Type} (line : Line ε)
    (pulse_length factor1 factor2 : Nat) (st : EmitSt) :
    Except (ε × EmitSt) EmitSt :=
  (set_value_sleep line 1 (mul_u64 pulse_length factor2) st).bind
    (set_value_sleep line 0 (mul_u64 pulse_length factor1))

/-- Body of the inner loop of `Transmission::send_to`: classify one
character and emit its pulse. -/
def send_char {ε : Type} (line : Line ε) (t : Transmission) (c : Char)
    (st : EmitSt) : Except (ε × EmitSt) EmitSt :=
  if c = '1' then
    send_bit line true t.pulse_length t.protocol.long t.protocol.short st
  else if c = '0' then
    send_bit line false t.pulse_length t.protocol.long t.protocol.short st
  else
    send_sync_bit line t.pulse_length t.protocol.sync_gap t.protocol.sync_bit st

/-- Inner loop of `send_to`: `for c in self.sequence.chars()`. -/
def send_chars {ε : Type} (line : Line ε) (t : Transmission) :
    List Char → EmitSt → Except (ε × EmitSt) EmitSt
  | [], st => Except.ok st
  | c :: cs, st => (send_char line t c st).bind (send_chars line t cs)

/-- Outer loop of `send_to`: `for _ in 0..self.repeats`. -/
def send_repeats {ε : Type} (line : Line ε) (t : Transmission) :
    Nat → EmitSt → Except (ε × EmitSt) EmitSt
  | 0, st => Except.ok st
  | r + 1, st => (send_chars line t t.sequence st).bind (send_repeats line t r)

/-- What one call of `Transmission::send_to` did: the level the line
was driven to when the output was requested (`request(OUTPUT, 0, "tx")`;
`none` if acquisition failed), the number of `set_value` calls
attempted, the phases driven, and the returned `Result`. -/
structure SendOutcome (ε : Type) where
  initLevel : Option Nat
  calls : Nat
  events : List (Nat × Nat)
  result : Except ε Unit

/-- Rust `Transmission::send_to`.  `acquire` is the combined result of
`Chip::new`, `get_line` and `request(LineRequestFlags::OUTPUT, 0, "tx")`;
on success the request drives the line to level `0`. -/
def Transmission.send_to {ε : Type} (t : Transmission)
    (acquire : Except ε Unit) (line : Line ε) : SendOutcome ε :=
  match acquire with
  | Except.error e => ⟨none, 0, [], Except.error e⟩
  | Except.ok _ =>
    match send_repeats line t t.repeats (0, []) with
    | Except.error (e, st) => ⟨some 0, st.1, st.2, Except.error e⟩
    | Except.ok st => ⟨some 0, st.1, st.2, Except.ok ()⟩

/-- Rust mutator `Transmission::sequence(&mut self, seq: &str)`
(named `sequence_mut` here because the field projection already takes
the source name): returns the updated struct. -/
def Transmission.sequence_mut (t : Transmission) (seq : List Char) :
    Transmission :=
  ⟨seq, t.pulse_length, t.repeats, t.protocol⟩

/-! ## Pure event traces

The `(level, micros)` phases the source drives on a fault-free line,
read off the same branches of `send_bit` / `send_sync_bit` / the
`send_to` loops. -/

/-- Phases of one `send_bit` call. -/
def bit_events (bit : Bool) (pulse_length factor1 factor2 : Nat) :
    List (Nat × Nat) :=
  if bit then
    [(1, mul_u64 pulse_length factor1), (0, mul_u64 pulse_length factor2)]
  else
    [(1, mul_u64 pulse_length factor2), (0, mul_u64 pulse_length factor1)]

/-- Phases of one `send_sync_bit` call. -/
def sync_events (pulse_length factor1 factor2 : Nat) : List (Nat × Nat) :=
  [(1, mul_u64 pulse_length factor2), (0, mul_u64 pulse_length factor1)]

/-- Phases emitted for one character of the sequence. -/
def char_events (t : Transmission) (c : Char) : List (Nat × Nat) :=
  if c = '1' then
    bit_events true t.pulse_length t.protocol.long t.protocol.short
  else if c = '0' then
    bit_events false t.pulse_length t.protocol.long t.protocol.short
  else
    sync_events t.pulse_length t.protocol.sync_gap t.protocol.sync_bit

/-- Phases of one pass over the whole sequence. -/
def seq_events (t : Transmission) : List (Nat × Nat) :=
  (t.sequence.map (char_events t)).flatten

/-- Phases of the whole transmission: `repeats` passes in order. -/
def full_events (t : Transmission) : List (Nat × Nat) :=
  (List.replicate t.repeats (seq_events t)).flatten

/-- Generic runner: drive a list of phases on a line, aborting at the
first failing `set_value`. -/
def run_events {ε : Type} (line : Line ε) :
    List (Nat × Nat) → EmitSt → Except (ε × EmitSt) EmitSt
  | [], st => Except.ok st
  | ev :: evs, st => (set_value_sleep line ev.1 ev.2 st).bind (run_events line evs)

/-! ## Flat serialization (`Transmission::csv_as_bytes`)

The Rust helper renders the transmission with
`format!("{},{},{},{},{},{},{}", ...)` and returns the bytes of the
resulting string.  We model the record at the character level; the six
numeric fields use `natToDecimal`, the embedding of Rust's decimal
`Display` for unsigned integers (most-significant digit first, `"0"`
for zero). -/

/-- The character for one decimal digit value. -/
def decimalDigitChar (d : Nat) : Char := Char.ofNat (48 + d)

/-- Decimal rendering of an unsigned integer, as Rust `Display`
produces it inside `format!`. -/
def natToDecimal (n : Nat) : List Char :=
  if n = 0 then ['0'] else ((Nat.digits 10 n).map decimalDigitChar).reverse

/-- Numeric value of one decimal digit character. -/
def decCharVal (c : Char) : Nat := c.toNat - 48

/-- Parse a decimal digit string (most-significant digit first). -/
def decToNat (cs : List Char) : Nat :=
  Nat.ofDigits 10 ((cs.map decCharVal).reverse)

/-- Rust `Transmission::csv_as_bytes`: the raw sequence and the six
numbers, comma separated, in the fixed source order. -/
def Transmission.csv_as_bytes (t : Transmission) : List Char :=
  t.sequence ++ ',' :: natToDecimal t.pulse_length ++
    ',' :: natToDecimal t.repeats ++
    ',' :: natToDecimal t.protocol.short ++
    ',' :: natToDecimal t.protocol.long ++
    ',' :: natToDecimal t.protocol.sync_bit ++
    ',' :: natToDecimal t.protocol.sync_gap

/-- Split a character list at every comma (the decoding a consumer of
the record performs). -/
def splitComma : List Char → List (List Char)
  | [] => [[]]
  | c :: rest =>
    if c = ',' then [] :: splitComma rest
    else
      match splitComma rest with
      | [] => [[c]]
      | g :: gs => (c :: g) :: gs

/-! ## Helper lemmas -/

theorem except_bind_pure {α β : Type} (e : Except α β) :
    e.bind Except.ok = e := by
  cases e <;> rfl

theorem except_bind_assoc {α β γ δ : Type} (e : Except α β)
    (f : β → Except α γ) (g : γ → Except α δ) :
    (e.bind f).bind g = e.bind fun b => (f b).bind g := by
  cases e <;> rfl

theorem run_events_append {ε : Type} (line : Line ε)
    (xs ys : List (Nat × Nat)) (st : EmitSt) :
    run_events line (xs ++ ys) st =
      (run_events line xs st).bind (run_events line ys) := by
  induction xs generalizing st with
  | nil => simp [run_events, Except.bind]
  | cons x xs ih =>
    simp only [List.cons_append, run_events, except_bind_assoc]
    cases set_value_sleep line x.1 x.2 st with
    | error e => rfl
    | ok st2 => simpa [Except.bind] using ih st2

theorem send_bit_run {ε : Type} (line : Line ε) (bit : Bool)
    (pl f1 f2 : Nat) (st : EmitSt) :
    send_bit line bit pl f1 f2 st =
      run_events line (bit_events bit pl f1 f2) st := by
  cases bit <;>
    simp [send_bit, bit_events, run_events, except_bind_pure, except_bind_assoc]

theorem send_sync_bit_run {ε : Type} (line : Line ε)
    (pl f1 f2 : Nat) (st : EmitSt) :
    send_sync_bit line pl f1 f2 st =
      run_events line (sync_events pl f1 f2) st := by
  simp [send_sync_bit, sync_events, run_events, except_bind_pure,
    except_bind_assoc]

theorem send_char_run {ε : Type} (line : Line ε) (t : Transmission)
    (c : Char) (st : EmitSt) :
    send_char line t c st = run_events line (char_events t c) st := by
  unfold send_char char_events
  split
  · exact send_bit_run line true t.pulse_length t.protocol.long t.protocol.short st
  · split
    · exact send_bit_run line false t.pulse_length t.protocol.long t.protocol.short st
    · exact send_sync_bit_run line t.pulse_length t.protocol.sync_gap
        t.protocol.sync_bit st

theorem send_chars_run {ε : Type} (line : Line ε) (t : Transmission)
    (cs : List Char) (st : EmitSt) :
    send_chars line t cs st =
      run_events line ((cs.map (char_events t)).flatten) st := by
  induction cs generalizing st with
  | nil => rfl
  | cons c cs ih =>
    simp only [send_chars, List.map_cons, List.flatten_cons,
      run_events_append, send_char_run]
    cases run_events line (char_events t c) st with
    | error e => rfl
    | ok st2 => simpa [Except.bind] using ih st2

theorem send_repeats_run {ε : Type} (line : Line ε) (t : Transmission)
    (r : Nat) (st : EmitSt) :
    send_repeats line t r st =
      run_events line ((List.replicate r (seq_events t)).flatten) st := by
  induction r generalizing st with
  | zero => rfl
  | succ r ih =>
    simp only [send_repeats, List.replicate_succ, List.flatten_cons,
      run_events_append, send_chars_run, seq_events]
    cases run_events line ((t.sequence.map (char_events t)).flatten) st with
    | error e => rfl
    | ok st2 => simpa [Except.bind] using ih st2

theorem run_events_ok_line {ε : Type} (evs : List (Nat × Nat)) (st : EmitSt) :
    run_events (ok_line ε) evs st =
      Except.ok (st.1 + evs.length, st.2 ++ evs) := by
  induction evs generalizing st with
  | nil => simp [run_events]
  | cons ev evs ih =>
    simp only [run_events, set_value_sleep, ok_line, Except.bind]
    rw [ih]
    simp [Nat.add_comm, Nat.add_assoc, Nat.add_left_comm]

theorem run_events_ok_elim {ε : Type} {line : Line ε}
    {evs : List (Nat × Nat)} {st st' : EmitSt}
    (h : run_events line evs st = Except.ok st') :
    st' = (st.1 + evs.length, st.2 ++ evs) := by
  induction evs generalizing st with
  | nil =>
    simp only [run_events] at h
    cases h
    simp
  | cons ev evs ih =>
    simp only [run_events, set_value_sleep] at h
    cases hl : line st.1 with
    | error e => rw [hl] at h; exact absurd h (by simp [Except.bind])
    | ok u =>
      rw [hl] at h
      simp only [Except.bind] at h
      have := ih h
      rw [this]
      simp [Nat.add_comm, Nat.add_assoc, Nat.add_left_comm]

theorem run_events_fault {ε : Type} {line : Line ε} (evs : List (Nat × Nat))
    (st : EmitSt) (k : Nat) (e : ε)
    (hok : ∀ j, j < k → line (st.1 + j) = Except.ok ())
    (hf : line (st.1 + k) = Except.error e) (hk : k < evs.length) :
    run_events line evs st =
      Except.error (e, (st.1 + k + 1, st.2 ++ evs.take k)) := by
  induction evs generalizing st k with
  | nil => exact absurd hk (by simp)
  | cons ev evs ih =>
    cases k with
    | zero =>
      simp only [run_events, set_value_sleep]
      rw [show st.1 + 0 = st.1 from rfl] at hf
      rw [hf]
      simp [Except.bind]
    | succ k =>
      have h0 : line st.1 = Except.ok () := by
        have := hok 0 (Nat.succ_pos k)
        simpa using this
      simp only [run_events, set_value_sleep]
      rw [h0]
      simp only [Except.bind]
      have ih2 := ih (st.1 + 1, st.2 ++ [ev]) k
        (fun j hj => by
          have := hok (j + 1) (Nat.succ_lt_succ hj)
          simpa [Nat.add_comm, Nat.add_assoc, Nat.add_left_comm] using this)
        (by simpa [Nat.add_comm, Nat.add_assoc, Nat.add_left_comm] using hf)
        (by simpa using Nat.lt_of_succ_lt_succ hk)
      rw [ih2]
      simp [Nat.add_comm, Nat.add_assoc, Nat.add_left_comm]

theorem char_events_length (t : Transmission) (c : Char) :
    (char_events t c).length = 2 := by
  unfold char_events bit_events sync_events
  split
  · rfl
  · split <;> rfl

theorem seq_events_chars_length (t : Transmission) (cs : List Char) :
    ((cs.map (char_events t)).flatten).length = 2 * cs.length := by
  induction cs with
  | nil => rfl
  | cons c cs ih =>
    simp only [List.map_cons, List.flatten_cons, List.length_append, ih,
      char_events_length, List.length_cons]
    ring

theorem full_events_length (t : Transmission) :
    (full_events t).length = 2 * t.sequence.length * t.repeats := by
  unfold full_events
  induction t.repeats with
  | zero => rfl
  | succ r ih =>
    simp only [List.replicate_succ, List.flatten_cons, List.length_append, ih]
    unfold seq_events
    rw [seq_events_chars_length]
    ring

theorem mul_u64_no_overflow {a b : Nat} (ha : a < 2 ^ 16) (hb : b < 2 ^ 8) :
    mul_u64 a b = a * b := by
  unfold mul_u64 U64MOD
  apply Nat.mod_eq_of_lt
  calc a * b ≤ 65535 * 255 := Nat.mul_le_mul (by omega) (by omega)
    _ < 2 ^ 64 := by norm_num

theorem char_events_eval {t : Transmission} (h : t.wf) (c : Char) :
    char_events t c =
      (if c = '1' then
        [(1, t.pulse_length * t.protocol.long),
         (0, t.pulse_length * t.protocol.short)]
      else if c = '0' then
        [(1, t.pulse_length * t.protocol.short),
         (0, t.pulse_length * t.protocol.long)]
      else
        [(1, t.pulse_length * t.protocol.sync_bit),
         (0, t.pulse_length * t.protocol.sync_gap)]) := by
  obtain ⟨hp, _, hs, hl, hsb, hsg⟩ := h
  by_cases h1 : c = '1'
  · simp [char_events, bit_events, h1, mul_u64_no_overflow hp hl,
      mul_u64_no_overflow hp hs]
  · by_cases h0 : c = '0'
    · simp [char_events, bit_events, h1, h0, mul_u64_no_overflow hp hl,
        mul_u64_no_overflow hp hs]
    · simp [char_events, sync_events, h1, h0, mul_u64_no_overflow hp hsb,
        mul_u64_no_overflow hp hsg]

theorem send_to_ok_of_repeats {ε : Type} (t : Transmission) (line : Line ε)
    (st : EmitSt)
    (h : send_repeats line t t.repeats (0, []) = Except.ok st) :
    t.send_to (Except.ok ()) line = ⟨some 0, st.1, st.2, Except.ok ()⟩ := by
  unfold Transmission.send_to
  rw [h]

theorem send_to_error_of_repeats {ε : Type} (t : Transmission)
    (line : Line ε) (e : ε) (st : EmitSt)
    (h : send_repeats line t t.repeats (0, []) = Except.error (e, st)) :
    t.send_to (Except.ok ()) line = ⟨some 0, st.1, st.2, Except.error e⟩ := by
  unfold Transmission.send_to
  rw [h]

theorem send_to_ok_line_eq {ε : Type} (t : Transmission) :
    t.send_to (Except.ok ()) (ok_line ε) =
      ⟨some 0, 2 * t.sequence.length * t.repeats, full_events t,
        Except.ok ()⟩ := by
  have h : send_repeats (ok_line ε) t t.repeats (0, []) =
      Except.ok (0 + (full_events t).length, [] ++ full_events t) := by
    rw [send_repeats_run]
    exact run_events_ok_line (full_events t) (0, [])
  rw [send_to_ok_of_repeats t (ok_line ε) _ h]
  simp [full_events_length]

/-! ## Claims -/

/-- C1: for every transmission (well-formed w.r.t. the Rust integer
widths) and every character, the pulse emitted for that character is a
high phase then a low phase with durations
`(pulse_length*long, pulse_length*short)` for `'1'`,
`(pulse_length*short, pulse_length*long)` for `'0'`, and
`(pulse_length*sync_bit, pulse_length*sync_gap)` for anything else. -/
theorem claim_c1_pulse_pair {ε : Type} (t : Transmission) (h : t.wf)
    (c : Char) (st : EmitSt) :
    send_char (ok_line ε) t c st =
      Except.ok (st.1 + 2, st.2 ++
        (if c = '1' then
          [(1, t.pulse_length * t.protocol.long),
           (0, t.pulse_length * t.protocol.short)]
        else if c = '0' then
          [(1, t.pulse_length * t.protocol.short),
           (0, t.pulse_length * t.protocol.long)]
        else
          [(1, t.pulse_length * t.protocol.sync_bit),
           (0, t.pulse_length * t.protocol.sync_gap)])) := by
  rw [send_char_run, run_events_ok_line, char_events_length, char_events_eval h]

/-- Witness for C1 at a concrete input. -/
theorem claim_c1_pulse_pair_w :
    send_char (ok_line Unit) ⟨['1'], 100, 1, P1⟩ '1' (0, []) =
      Except.ok (2, [(1, 300), (0, 100)]) := by
  have h := @claim_c1_pulse_pair Unit ⟨['1'], 100, 1, P1⟩ (by decide) '1' (0, [])
  simpa using h

/-- C2: a successful emission makes exactly `2 * N * R` `set_value`
calls, where `N` is the sequence length and `R = repeats > 0`. -/
theorem claim_c2_call_count {ε : Type} (t : Transmission)
    (acquire : Except ε Unit) (line : Line ε) (hr : 0 < t.repeats)
    (hok : (t.send_to acquire line).result = Except.ok ()) :
    (t.send_to acquire line).calls = 2 * t.sequence.length * t.repeats := by
  cases acquire with
  | error e => exact absurd hok (by simp [Transmission.send_to])
  | ok u =>
    cases u
    cases hsr : send_repeats line t t.repeats (0, []) with
    | error p =>
      obtain ⟨e, st⟩ := p
      rw [send_to_error_of_repeats t line e st hsr] at hok
      exact absurd hok (by simp)
    | ok st =>
      rw [send_to_ok_of_repeats t line st hsr]
      have hst := run_events_ok_elim (by rw [← send_repeats_run]; exact hsr)
      rw [hst]
      show 0 + ((List.replicate t.repeats (seq_events t)).flatten).length = _
      rw [Nat.zero_add]
      have hfl := full_events_length t
      unfold full_events at hfl
      exact hfl

/-- Witness for C2 at a concrete input. -/
theorem claim_c2_call_count_w :
    (Transmission.send_to ⟨['1', '0'], 100, 2, P1⟩ (Except.ok ())
      (ok_line Unit)).calls = 8 := by
  have h := claim_c2_call_count ⟨['1', '0'], 100, 2, P1⟩ (Except.ok ())
    (ok_line Unit) (by decide) (by rfl)
  simpa using h

/-- C3: with `repeats = 0`, emission makes zero `set_value` calls
whatever the line does, and returns success whenever line acquisition
succeeds (driving no pulse at all). -/
theorem claim_c3_zero_repeats {ε : Type} (t : Transmission)
    (acquire : Except ε Unit) (line : Line ε) (hr : t.repeats = 0) :
    (t.send_to acquire line).calls = 0 ∧
      (acquire = Except.ok () →
        t.send_to acquire line = ⟨some 0, 0, [], Except.ok ()⟩) := by
  cases acquire with
  | error e =>
    refine ⟨rfl, fun h => absurd h (by simp)⟩
  | ok u =>
    unfold Transmission.send_to
    rw [hr]
    exact ⟨rfl, fun _ => rfl⟩

/-- Witness for C3 at a concrete input. -/
theorem claim_c3_zero_repeats_w :
    (Transmission.send_to ⟨['1', 'x'], 500, 0, P2⟩ (Except.ok ())
      (ok_line Unit)).calls = 0 ∧
      Transmission.send_to ⟨['1', 'x'], 500, 0, P2⟩ (Except.ok ())
        (ok_line Unit) = ⟨some 0, 0, [], Except.ok ()⟩ := by
  have h := claim_c3_zero_repeats ⟨['1', 'x'], 500, 0, P2⟩ (Except.ok ())
    (ok_line Unit) (by decide)
  exact ⟨h.1, h.2 rfl⟩

/-- C4: if the k-th `set_value` call (0-indexed) is the first to fail,
emission stops with exactly `k + 1` calls attempted, the phases driven
are exactly the first `k` of the full trace (the remaining symbols and
repeats are not attempted), and the very fault is returned.  No
hypothesis on the sequence content is needed: there is no validation
error path. -/
theorem claim_c4_fault_abort {ε : Type} (t : Transmission) (line : Line ε)
    (k : Nat) (e : ε)
    (hok : ∀ j, j < k → line j = Except.ok ())
    (hf : line k = Except.error e)
    (hk : k < 2 * t.sequence.length * t.repeats) :
    t.send_to (Except.ok ()) line =
      ⟨some 0, k + 1, (full_events t).take k, Except.error e⟩ := by
  have hlen : k < ((List.replicate t.repeats (seq_events t)).flatten).length := by
    have hfl := full_events_length t
    unfold full_events at hfl
    omega
  have hrun := run_events_fault
    ((List.replicate t.repeats (seq_events t)).flatten) (0, []) k e
    (by simpa using hok) (by simpa using hf) hlen
  have hsr : send_repeats line t t.repeats (0, []) =
      Except.error (e, (k + 1, (full_events t).take k)) := by
    rw [send_repeats_run, hrun]
    simp [full_events]
  exact send_to_error_of_repeats t line e (k + 1, (full_events t).take k) hsr

/-- Witness for C4 at a concrete input: the line fails on its third
call (index 2). -/
theorem claim_c4_fault_abort_w :
    Transmission.send_to ⟨['1', '0'], 100, 2, P1⟩ (Except.ok ())
      (fun j => if j = 2 then Except.error 7 else Except.ok ()) =
      ⟨some 0, 3, [(1, 300), (0, 100)], Except.error 7⟩ := by
  have h := claim_c4_fault_abort ⟨['1', '0'], 100, 2, P1⟩
    (fun j => if j = 2 then Except.error 7 else Except.ok ()) 2 7
    (fun j hj => by interval_cases j <;> rfl) (by rfl) (by decide)
  simpa using h

/-- C5: on a fault-free line the ordered event list of an emission with
`repeats = R > 0` is exactly `R` concatenated copies of the
per-sequence event list, and every symbol contributes exactly a
level-1 phase followed by a level-0 phase (one `set_value` per phase,
no coalescing). -/
theorem claim_c5_trace_structure {ε : Type} (t : Transmission)
    (hr : 0 < t.repeats) :
    (t.send_to (Except.ok ()) (ok_line ε)).events =
      (List.replicate t.repeats (seq_events t)).flatten ∧
      ∀ c, (char_events t c).map Prod.fst = [1, 0] := by
  constructor
  · unfold Transmission.send_to
    rw [send_repeats_run, run_events_ok_line]
    simp
  · intro c
    unfold char_events bit_events sync_events
    split_ifs <;> rfl

/-- Witness for C5 at a concrete input (spec Scenario B). -/
theorem claim_c5_trace_structure_w :
    (Transmission.send_to ⟨['s', '0'], 320, 2, P1⟩ (Except.ok ())
      (ok_line Unit)).events =
      [(1, 320), (0, 9920), (1, 320), (0, 960),
       (1, 320), (0, 9920), (1, 320), (0, 960)] := by
  have h := @claim_c5_trace_structure Unit ⟨['s', '0'], 320, 2, P1⟩
    (by decide)
  exact h.1.trans (by rfl)

/-- C8: for `pulse_length` in the `u16` range and a factor in the `u8`
range, the `u64` duration computation is the exact mathematical
product — no overflow, truncation or rounding. -/
theorem claim_c8_duration_exact (pl f : Nat) (hpl : pl < 2 ^ 16)
    (hf : f < 2 ^ 8) : mul_u64 pl f = pl * f :=
  mul_u64_no_overflow hpl hf

/-- Witness for C8 at the maximal input `65535 * 255 = 16711425`. -/
theorem claim_c8_duration_exact_w : mul_u64 65535 255 = 16711425 := by
  have h := claim_c8_duration_exact 65535 255 (by norm_num) (by norm_num)
  simpa using h

/-- C9: the sequence mutator replaces only the `sequence` field;
`pulse_length`, `repeats` and the embedded protocol are unchanged. -/
theorem claim_c9_sequence_mut_frame (t : Transmission) (s : List Char) :
    (t.sequence_mut s).sequence = s ∧
      (t.sequence_mut s).pulse_length = t.pulse_length ∧
      (t.sequence_mut s).repeats = t.repeats ∧
      (t.sequence_mut s).protocol = t.protocol :=
  ⟨rfl, rfl, rfl, rfl⟩

/-- C10: emission acquires the line as an output driven to level 0
before any symbol (also when `repeats = 0` or the sequence is empty),
and a failed acquisition surfaces the fault with no `set_value` call
and no pulse. -/
theorem claim_c10_acquire_low {ε : Type} (t : Transmission) (line : Line ε)
    (e : ε) :
    (t.send_to (Except.ok ()) line).initLevel = some 0 ∧
      t.send_to (Except.error e) line = ⟨none, 0, [], Except.error e⟩ := by
  constructor
  · unfold Transmission.send_to
    cases hsr : send_repeats line t t.repeats (0, []) with
    | error p => obtain ⟨e2, st⟩ := p; rfl
    | ok st => rfl
  · rfl


theorem splitComma_ne_nil (cs : List Char) : splitComma cs ≠ [] := by
  induction cs with
  | nil => simp [splitComma]
  | cons c cs ih =>
    by_cases hc : c = ','
    · subst hc; simp [splitComma]
    · simp only [splitComma, if_neg hc]
      cases hsx : splitComma cs with
      | nil => exact absurd hsx ih
      | cons g gs => simp

theorem splitComma_of_no_comma {cs : List Char} (h : ',' ∉ cs) :
    splitComma cs = [cs] := by
  induction cs with
  | nil => rfl
  | cons c cs ih =>
    have hc : ¬c = ',' := fun hc => h (by rw [hc]; exact List.mem_cons_self _ _)
    have ht : ',' ∉ cs := fun hm => h (List.mem_cons_of_mem c hm)
    simp [splitComma, hc, ih ht]

theorem splitComma_append (xs ys : List Char) :
    splitComma (xs ++ ',' :: ys) = splitComma xs ++ splitComma ys := by
  induction xs with
  | nil => simp [splitComma]
  | cons c xs ih =>
    by_cases hc : c = ','
    · subst hc
      simp [splitComma, ih]
    · simp only [List.cons_append, splitComma, if_neg hc, List.append_eq]
      cases hsx : splitComma xs with
      | nil => exact absurd hsx (splitComma_ne_nil xs)
      | cons g gs =>
        rw [ih, hsx]
        simp

theorem decCharVal_digit {d : Nat} (h : d < 10) :
    decCharVal (decimalDigitChar d) = d := by
  interval_cases d <;> decide

theorem decimalDigitChar_ne_comma {d : Nat} (h : d < 10) :
    decimalDigitChar d ≠ ',' := by
  interval_cases d <;> decide

theorem natToDecimal_no_comma (n : Nat) : ',' ∉ natToDecimal n := by
  unfold natToDecimal
  split
  · decide
  · intro hm
    rw [List.mem_reverse, List.mem_map] at hm
    obtain ⟨d, hd, hval⟩ := hm
    have hlt : d < 10 := Nat.digits_lt_base (by norm_num) hd
    exact decimalDigitChar_ne_comma hlt hval

theorem decToNat_natToDecimal (n : Nat) : decToNat (natToDecimal n) = n := by
  unfold natToDecimal decToNat
  split
  · simp_all [decCharVal, Nat.ofDigits]
  · rw [List.map_reverse, List.reverse_reverse, List.map_map]
    have hcongr : (Nat.digits 10 n).map (decCharVal ∘ decimalDigitChar) =
        (Nat.digits 10 n).map id :=
      List.map_congr_left fun d hd =>
        decCharVal_digit (Nat.digits_lt_base (by norm_num) hd)
    rw [hcongr, List.map_id, Nat.ofDigits_digits]

theorem splitComma_csv (t : Transmission) :
    splitComma t.csv_as_bytes =
      splitComma t.sequence ++
        [natToDecimal t.pulse_length, natToDecimal t.repeats,
         natToDecimal t.protocol.short, natToDecimal t.protocol.long,
         natToDecimal t.protocol.sync_bit,
         natToDecimal t.protocol.sync_gap] := by
  unfold Transmission.csv_as_bytes
  rw [splitComma_append, splitComma_append, splitComma_append,
    splitComma_append, splitComma_append, splitComma_append,
    splitComma_of_no_comma (natToDecimal_no_comma t.pulse_length),
    splitComma_of_no_comma (natToDecimal_no_comma t.repeats),
    splitComma_of_no_comma (natToDecimal_no_comma t.protocol.short),
    splitComma_of_no_comma (natToDecimal_no_comma t.protocol.long),
    splitComma_of_no_comma (natToDecimal_no_comma t.protocol.sync_bit),
    splitComma_of_no_comma (natToDecimal_no_comma t.protocol.sync_gap)]
  simp

/-- C6: whenever the sequence contains no comma, splitting the flat
record at commas yields exactly seven fields in the fixed order
`SEQUENCE, PULSE_LENGTH, REPEATS, SHORT, LONG, SYNC_BIT, SYNC_GAP`:
the raw sequence followed by the six decimal renderings. -/
theorem claim_c6_csv_fields (t : Transmission) (h : ',' ∉ t.sequence) :
    splitComma t.csv_as_bytes =
      [t.sequence, natToDecimal t.pulse_length, natToDecimal t.repeats,
       natToDecimal t.protocol.short, natToDecimal t.protocol.long,
       natToDecimal t.protocol.sync_bit, natToDecimal t.protocol.sync_gap] := by
  rw [splitComma_csv, splitComma_of_no_comma h]
  rfl

/-- Witness for C6 at a concrete input. -/
theorem claim_c6_csv_fields_w :
    splitComma (Transmission.csv_as_bytes ⟨['1', '0', 's'], 320, 5, P1⟩) =
      [['1', '0', 's'], ['3', '2', '0'], ['5'], ['1'], ['3'], ['1'],
       ['3', '1']] := by
  have h := claim_c6_csv_fields ⟨['1', '0', 's'], 320, 5, P1⟩ (by decide)
  rw [h]
  simp [natToDecimal, decimalDigitChar, P1]

/-- C7: for every transmission, parsing the last six comma-separated
fields of the flat record (in reverse order) recovers `sync_gap`,
`sync_bit`, `long`, `short`, `repeats` and `pulse_length` exactly, and
when the sequence contains no comma the first field is the sequence
itself. -/
theorem claim_c7_csv_roundtrip (t : Transmission) :
    ((splitComma t.csv_as_bytes).reverse.take 6).map decToNat =
      [t.protocol.sync_gap, t.protocol.sync_bit, t.protocol.long,
       t.protocol.short, t.repeats, t.pulse_length] ∧
      (',' ∉ t.sequence →
        (splitComma t.csv_as_bytes).head? = some t.sequence) := by
  constructor
  · rw [splitComma_csv, List.reverse_append]
    simp [decToNat_natToDecimal]
  · intro h
    rw [splitComma_csv, splitComma_of_no_comma h]
    rfl

/-- Witness for C7 at a concrete input. -/
theorem claim_c7_csv_roundtrip_w :
    ((splitComma (Transmission.csv_as_bytes ⟨['1', '0', 's'], 320, 5, P1⟩)).reverse.take
        6).map decToNat = [31, 1, 3, 1, 5, 320] ∧
      (splitComma
        (Transmission.csv_as_bytes ⟨['1', '0', 's'], 320, 5, P1⟩)).head? =
        some ['1', '0', 's'] := by
  have h := claim_c7_csv_roundtrip ⟨['1', '0', 's'], 320, 5, P1⟩
  exact ⟨h.1.trans (by rfl), h.2 (by decide)⟩
